import Mathlib

/-!
Verification of the orchestration logic of `dotnet_decompiler.py`
(`DotnetDecompiler.execute`).  The Python code is shallowly embedded:
strings and byte buffers become `List Char`, the three external
`ilspycmd` invocations and the filesystem become fields of an
environment record, and `execute` becomes a pure function from that
environment to the outcome (normal return or raised exception) together
with the result sections and artifacts registered by the run.
-/

set_option autoImplicit false

namespace DotnetDecompiler

/-! ### Python string primitives -/

/-- Python `s.split(c, 1)` for a one-character separator: the part before
the first occurrence of `c`, and `some` of the part after it (`none` when
`c` does not occur). -/
def splitOnce (c : Char) : List Char → List Char × Option (List Char)
  | [] => ([], none)
  | x :: xs =>
    if x = c then ([], some xs)
    else
      let r := splitOnce c xs
      (x :: r.1, r.2)

/-- Python `needle in hay` for `bytes`/`str`: contiguous-substring test. -/
def containsSub (needle : List Char) : List Char → Bool
  | [] => needle.isEmpty
  | x :: xs => needle.isPrefixOf (x :: xs) || containsSub needle xs

/-- Python `os.path.basename` (posix): the part after the last `/`. -/
def basename (p : List Char) : List Char :=
  (p.reverse.takeWhile (fun ch => ch != '/')).reverse

/-- Index of the last occurrence of `c`, Python `s.rfind(c)` (as an option). -/
def lastIndexOf (c : Char) : List Char → Option Nat
  | [] => none
  | x :: xs =>
    match lastIndexOf c xs with
    | some i => some (i + 1)
    | none => if x = c then some 0 else none

/-- The root part of Python `os.path.splitext(p)`: split at the last dot,
unless every character between the last `/` and that dot is itself a dot
(CPython `genericpath._splitext`). -/
def splitextRoot (p : List Char) : List Char :=
  match lastIndexOf '.' p with
  | none => p
  | some i =>
    match lastIndexOf '/' p with
    | some j =>
      if j < i ∧ ((p.drop (j + 1)).take (i - j - 1)).any (fun ch => ch != '.') then
        p.take i
      else p
    | none =>
      if (p.take i).any (fun ch => ch != '.') then p.take i else p

/-- Python `os.path.join(a, b)` (posix, two arguments). -/
def pyJoin (a b : List Char) : List Char :=
  if b.head? = some '/' then b
  else if a = [] ∨ a.getLast? = some '/' then a ++ b
  else a ++ '/' :: b

/-! ### Attribute-line parsing (lines 55-66 of the source) -/

/-- The literal marker `"[assembly: "` that starts an attribute line. -/
def assemblyMarker : List Char := "[assembly: ".toList

/-- `line.startswith("[assembly: ")`. -/
def isAttrLine (line : List Char) : Bool :=
  assemblyMarker.isPrefixOf line

/-- Python `v[::-1].split(")", 1)[-1][::-1]`: everything before the last
`)` of `v`, or `v` itself when `v` has no `)`. -/
def stripAfterLastParen (v : List Char) : List Char :=
  match splitOnce ')' v.reverse with
  | (_, some after) => after.reverse
  | (before, none) => before.reverse

/-- One attribute line to a `(key, value)` pair, exactly as the loop body
does it: when the line lacks `(` or `)`, the key is `line[11:]` up to the
first `]` and the value is empty; otherwise `line[11:]` is split at the
first `(` and the value keeps only what precedes the last `)`. -/
def parseAttrLine (line : List Char) : List Char × List Char :=
  let rest := line.drop 11
  if ¬ line.contains '(' ∨ ¬ line.contains ')' then
    ((splitOnce ']' rest).1, [])
  else
    let kr := splitOnce '(' rest
    -- On a line that starts with the marker, `(` occurs in `line` iff it
    -- occurs in `rest`, so the fallback `[]` is never taken.
    (kr.1, stripAfterLastParen (kr.2.getD []))

/-- The reading loop over the decompiled file: `started` is the truthiness
of `assembly_info.body`, i.e. whether an item has been added; a
non-attribute line is skipped before the block and breaks the loop once
the block has started. -/
def scanAttrsAux : Bool → List (List Char) → List (List Char × List Char)
  | _, [] => []
  | started, line :: rest =>
    if isAttrLine line then
      parseAttrLine line :: scanAttrsAux true rest
    else if started then
      []
    else
      scanAttrsAux false rest

/-- All attribute entries collected from the decompiled file's lines. -/
def scanAttrs (lines : List (List Char)) : List (List Char × List Char) :=
  scanAttrsAux false lines

/-! ### Result sections, artifacts, environment -/

/-- A plain nested `ResultSection` (title and text body). -/
structure SubSection where
  title : List Char
  text : List Char
deriving DecidableEq, Repr

/-- The `ResultOrderedKeyValueSection` built by the loop: its items list
(order-preserving, duplicate keys allowed) and its nested subsections. -/
structure AssemblySection where
  title : List Char
  items : List (List Char × List Char)
  subsections : List SubSection
deriving DecidableEq, Repr

/-- An extracted or supplementary artifact handed to the host framework. -/
structure Artifact where
  name : List Char
  description : List Char
  path : List Char
deriving DecidableEq, Repr

/-- How `execute` ends: a normal return, or a raised exception carrying
its payload. -/
inductive Outcome where
  | normal : Outcome
  | raised : List Char → Outcome
deriving DecidableEq, Repr

/-- Everything registered by one run of `execute`, plus how it ended. -/
structure ExecResult where
  outcome : Outcome
  sections : List AssemblySection
  extracted : List Artifact
  supplementary : List Artifact
deriving DecidableEq, Repr

/-- The run's environment: the request fields, and the observable outcome
of the three external `ilspycmd` invocations and of the filesystem.
`projectFiles` is the `os.walk` of the project folder, each regular file
given by its directory components relative to the project folder
(so `([], f)` sits in the top directory) together with its filename. -/
structure Env where
  workingDirectory : List Char
  filePath : List Char
  primaryReturncode : Int
  primaryStderr : List Char
  fileExists : List Char → Bool
  decompiledLines : List (List Char)
  ilReturncode : Int
  projectReturncode : Int
  projectFiles : List (List (List Char) × List Char)

/-! ### The four benign-failure stderr signatures (lines 28-39) -/

def sigBadImageFormat : List Char := "System.BadImageFormatException".toList

def sigPEFileNotSupported : List Char := "PEFileNotSupportedException".toList

def sigNullRef : List Char :=
  "System.NullReferenceException: Object reference not set to an instance of an object".toList

def sigNoManagedMetadata : List Char := "PE file does not contain any managed metadata".toList

/-! ### Paths derived from the request (lines 44-46, 102-104, 110) -/

/-- `os.path.join(working_directory, splitext(basename(file_path))[0] + ".decompiled.cs")`. -/
def decompiledFilePath (env : Env) : List Char :=
  pyJoin env.workingDirectory (splitextRoot (basename env.filePath) ++ ".decompiled.cs".toList)

/-- `os.path.join(working_directory, splitext(basename(file_path))[0] + ".il")`. -/
def ilFilePath (env : Env) : List Char :=
  pyJoin env.workingDirectory (splitextRoot (basename env.filePath) ++ ".il".toList)

/-- `os.path.join(working_directory, "project")`. -/
def projectFolder (env : Env) : List Char :=
  pyJoin env.workingDirectory "project".toList

/-! ### Sections and artifacts built by `execute` -/

/-- The advisory section of lines 77-84. -/
def suppressIldasmSection : SubSection :=
  { title := "SuppressIldasm attribute found".toList
    text := ("Author wanted to reduce visibility on this code, " ++
      "it may be genuine, but this was seen in malicious samples too.").toList }

/-- The "Assembly Information" section: the collected entries, with the
advisory subsection exactly when `information_keys` (the set of collected
keys) holds `"SuppressIldasm"`. -/
def mkAssemblySection (entries : List (List Char × List Char)) : AssemblySection :=
  { title := "Assembly Information".toList
    items := entries
    subsections :=
      if entries.any (fun e => e.1 == "SuppressIldasm".toList) then
        [suppressIldasmSection]
      else [] }

/-- Python `"/".join`-style concatenation of path components, the shape
`os.path.relpath` returns for a strict descendant directory. -/
def joinComponents : List (List Char) → List Char
  | [] => []
  | [d] => d
  | d :: e :: ds => d ++ '/' :: joinComponents (e :: ds)

/-- The literal `"./"` of line 134. -/
def dotSlash : List Char := ['.', '/']

/-- Lines 133-135: `rel_path = os.path.join(os.path.relpath(root,
project_folder), f)`, with a leading `./` stripped.  `relpath` is `"."`
for the project folder itself and the joined components below it. -/
def projArtifactName (ds : List (List Char)) (f : List Char) : List Char :=
  let rel := if ds.isEmpty then ['.'] else joinComponents ds
  let relPath := pyJoin rel f
  if dotSlash.isPrefixOf relPath then relPath.drop 2 else relPath

/-- The `root` of the `os.walk` entry whose components are `ds`. -/
def walkRoot (env : Env) (ds : List (List Char)) : List Char :=
  ds.foldl (fun acc d => pyJoin acc d) (projectFolder env)

/-- The supplementary artifact registered at line 136 for one walked file. -/
def projArtifact (env : Env) (p : List (List Char) × List Char) : Artifact :=
  { name := projArtifactName p.1 p.2
    description := "Project file".toList
    path := pyJoin (walkRoot env p.1) p.2 }

/-- The `project.zip` artifact of lines 125-128. -/
def zipArtifact (env : Env) : Artifact :=
  { name := "project.zip".toList
    description := "Project folder".toList
    path := pyJoin env.workingDirectory "project.zip".toList }

/-- The IL-listing artifact of lines 102-107. -/
def ilArtifact (env : Env) : Artifact :=
  { name := basename (ilFilePath env)
    description := "IL Code file".toList
    path := ilFilePath env }

/-- The extracted decompiled-source artifact of lines 86-88. -/
def decompiledArtifact (env : Env) : Artifact :=
  { name := basename (decompiledFilePath env)
    description := "Decompiled file".toList
    path := decompiledFilePath env }

/-! ### The `execute` method (lines 19-136) -/

/-- `DotnetDecompiler.execute`, step for step: classify a nonzero primary
exit by stderr signature (return empty or raise the stderr), require the
decompiled file, scan its attribute block, add the metadata section when
nonempty, register the decompiled file, then the best-effort IL and
project stages. -/
def execute (env : Env) : ExecResult :=
  if env.primaryReturncode ≠ 0 then
    if containsSub sigBadImageFormat env.primaryStderr then ⟨.normal, [], [], []⟩
    else if containsSub sigPEFileNotSupported env.primaryStderr then ⟨.normal, [], [], []⟩
    else if containsSub sigNullRef env.primaryStderr then ⟨.normal, [], [], []⟩
    else if containsSub sigNoManagedMetadata env.primaryStderr then ⟨.normal, [], [], []⟩
    else ⟨.raised env.primaryStderr, [], [], []⟩
  else if !(env.fileExists (decompiledFilePath env)) then
    ⟨.raised "No ILSpy decompilation found.".toList, [], [], []⟩
  else
    let entries := scanAttrs env.decompiledLines
    let sections := if entries.isEmpty then [] else [mkAssemblySection entries]
    let extracted := [decompiledArtifact env]
    let ilArtifacts := if env.ilReturncode = 0 then [ilArtifact env] else []
    if env.projectReturncode ≠ 0 then
      ⟨.normal, sections, extracted, ilArtifacts⟩
    else
      ⟨.normal, sections, extracted,
        ilArtifacts ++ zipArtifact env :: env.projectFiles.map (projArtifact env)⟩

/-! ### Helper lemmas -/

lemma isPrefixOf_self (l : List Char) : l.isPrefixOf l = true := by
  induction l with
  | nil => rfl
  | cons a t ih => simp [List.isPrefixOf, ih]

lemma containsSub_self (l : List Char) : containsSub l l = true := by
  cases l with
  | nil => rfl
  | cons a t => simp [containsSub, isPrefixOf_self]

lemma scanAttrsAux_skip (junk rest : List (List Char))
    (hj : ∀ l ∈ junk, isAttrLine l = false) :
    scanAttrsAux false (junk ++ rest) = scanAttrsAux false rest := by
  induction junk with
  | nil => rfl
  | cons j t ih =>
    have hjf : isAttrLine j = false := hj j (by simp)
    have ht := ih (fun l hl => hj l (List.mem_cons_of_mem _ hl))
    simp [scanAttrsAux, hjf, ht]

lemma scanAttrsAux_block (pre rest : List (List Char)) :
    ∀ b : Bool, (∀ l ∈ pre, isAttrLine l = true) → pre ≠ [] →
      scanAttrsAux b (pre ++ rest) = pre.map parseAttrLine ++ scanAttrsAux true rest := by
  induction pre with
  | nil => intro b _ hne; exact absurd rfl hne
  | cons p t ih =>
    intro b hp _
    have hpt : isAttrLine p = true := hp p (by simp)
    have hstep : ∀ (b : Bool) (l : List (List Char)),
        scanAttrsAux b (p :: l) = parseAttrLine p :: scanAttrsAux true l := by
      intro b l
      simp [scanAttrsAux, hpt]
    cases t with
    | nil => rw [List.cons_append, hstep]; simp
    | cons q t2 =>
      rw [List.cons_append, hstep,
        ih true (fun l hl => hp l (List.mem_cons_of_mem _ hl)) (by simp)]
      simp

lemma scanAttrsAux_false_eq_nil_iff (lines : List (List Char)) :
    scanAttrsAux false lines = [] ↔ lines.any isAttrLine = false := by
  induction lines with
  | nil => simp [scanAttrsAux]
  | cons l t ih =>
    by_cases h : isAttrLine l = true
    · simp [scanAttrsAux, h]
    · have hf : isAttrLine l = false := by simpa using h
      simp [scanAttrsAux, hf, ih]

/-! ### Claim theorems -/

/-- C1: when the primary decompiler invocation exits nonzero and its
captured stderr holds any of the four benign-failure signatures, `execute`
returns normally with no result sections, no extracted artifacts, no
supplementary artifacts and no raised error. -/
theorem benign_primary_failure_returns_empty (env : Env)
    (hrc : env.primaryReturncode ≠ 0)
    (hsig : containsSub sigBadImageFormat env.primaryStderr = true ∨
      containsSub sigPEFileNotSupported env.primaryStderr = true ∨
      containsSub sigNullRef env.primaryStderr = true ∨
      containsSub sigNoManagedMetadata env.primaryStderr = true) :
    execute env = ⟨.normal, [], [], []⟩ := by
  unfold execute
  rw [if_pos hrc]
  split_ifs with h1 h2 h3 h4
  · rfl
  · rfl
  · rfl
  · rfl
  · rcases hsig with h | h | h | h <;> simp_all

def envBenign : Env :=
  { workingDirectory := "/tmp".toList
    filePath := "/tmp/a.dll".toList
    primaryReturncode := 1
    primaryStderr := sigBadImageFormat
    fileExists := fun _ => false
    decompiledLines := []
    ilReturncode := 1
    projectReturncode := 1
    projectFiles := [] }

/-- Witness for C1 at a concrete environment. -/
theorem benign_primary_failure_returns_empty_witness :
    execute envBenign = ⟨.normal, [], [], []⟩ :=
  benign_primary_failure_returns_empty envBenign (by decide) (Or.inl (by decide))

/-- C2: when the primary decompiler invocation exits nonzero and its
stderr holds none of the four benign-failure signatures, `execute` raises
an error whose payload is (hence contains) the captured stderr, with no
sections or artifacts registered before it. -/
theorem unexpected_primary_failure_raises_stderr (env : Env)
    (hrc : env.primaryReturncode ≠ 0)
    (h1 : containsSub sigBadImageFormat env.primaryStderr = false)
    (h2 : containsSub sigPEFileNotSupported env.primaryStderr = false)
    (h3 : containsSub sigNullRef env.primaryStderr = false)
    (h4 : containsSub sigNoManagedMetadata env.primaryStderr = false) :
    execute env = ⟨.raised env.primaryStderr, [], [], []⟩ ∧
      containsSub env.primaryStderr env.primaryStderr = true := by
  refine ⟨?_, containsSub_self _⟩
  unfold execute
  rw [if_pos hrc]
  simp [h1, h2, h3, h4]

def envUnexpected : Env :=
  { envBenign with primaryStderr := "boom".toList }

/-- Witness for C2 at a concrete environment. -/
theorem unexpected_primary_failure_raises_stderr_witness :
    execute envUnexpected = ⟨.raised "boom".toList, [], [], []⟩ ∧
      containsSub "boom".toList "boom".toList = true :=
  unexpected_primary_failure_raises_stderr envUnexpected (by decide)
    (by decide) (by decide) (by decide) (by decide)

/-- C3 counterexample: the parenthesised argument keeps its surrounding
double quotes, so the title line does not map to the bare value `Foo`. -/
theorem attr_title_value_keeps_quotes_cex :
    parseAttrLine "[assembly: AssemblyTitle(\"Foo\")]".toList
      ≠ ("AssemblyTitle".toList, "Foo".toList) := by decide

/-- C3 amended: the title line maps to key `AssemblyTitle` and value
`"Foo"` (the quotes are part of the value); the `ComVisible(false)` line
maps to key `ComVisible` and value `false`; the parenthesis-free
`Debuggable` line maps to key `Debuggable` and the empty value. -/
theorem attr_line_parsing_examples :
    parseAttrLine "[assembly: AssemblyTitle(\"Foo\")]".toList
        = ("AssemblyTitle".toList, "\"Foo\"".toList) ∧
      parseAttrLine "[assembly: ComVisible(false)]".toList
        = ("ComVisible".toList, "false".toList) ∧
      parseAttrLine "[assembly: Debuggable]".toList
        = ("Debuggable".toList, "".toList) := by decide

/-- C4: once at least one attribute line has been recorded, the first
non-attribute line terminates the scan, so attribute lines after it are
not captured: on any lines of the form `junk ++ pre ++ stop :: post` with
`junk` free of attribute lines, `pre` a nonempty run of attribute lines
and `stop` not an attribute line, exactly the entries of `pre` are
recorded, whatever `post` holds. -/
theorem scan_stops_after_block (junk pre post : List (List Char)) (stop : List Char)
    (hj : ∀ l ∈ junk, isAttrLine l = false)
    (hp : ∀ l ∈ pre, isAttrLine l = true)
    (hne : pre ≠ [])
    (hs : isAttrLine stop = false) :
    scanAttrs (junk ++ pre ++ stop :: post) = pre.map parseAttrLine := by
  unfold scanAttrs
  rw [List.append_assoc, scanAttrsAux_skip junk _ hj,
    scanAttrsAux_block pre _ false hp hne]
  simp [scanAttrsAux, hs]

/-- Witness for C4 on the four-line example: only the entries of `A` and
`B` are recorded. -/
theorem scan_stops_after_block_witness :
    scanAttrs ["[assembly: A(1)]".toList, "[assembly: B(2)]".toList,
        "namespace X \x7b".toList, "[assembly: C(3)]".toList]
      = [("A".toList, "1".toList), ("B".toList, "2".toList)] :=
  (scan_stops_after_block []
      ["[assembly: A(1)]".toList, "[assembly: B(2)]".toList]
      ["[assembly: C(3)]".toList] "namespace X \x7b".toList
      (by simp) (by decide) (by decide) (by decide)).trans (by decide)

/-- C7 counterexample: a blank line (`"\n"`, as Python file iteration
yields it) is not an attribute line, so it does terminate the scan: the
attribute line after it is not captured. -/
theorem blank_line_terminates_scan_cex :
    scanAttrs ["[assembly: A(1)]".toList, "\n".toList, "[assembly: C(3)]".toList]
        = [("A".toList, "1".toList)] ∧
      ("C".toList, "3".toList) ∉
        scanAttrs ["[assembly: A(1)]".toList, "\n".toList, "[assembly: C(3)]".toList] := by
  decide

/-- C7 amended: attribute scanning stops at the first non-attribute line
of any kind once at least one attribute has been recorded; in particular a
blank line after recorded attribute lines terminates the scan and later
attribute lines are not captured. -/
theorem scan_stops_at_blank_line (pre post : List (List Char))
    (hp : ∀ l ∈ pre, isAttrLine l = true) (hne : pre ≠ []) :
    scanAttrs (pre ++ "\n".toList :: post) = pre.map parseAttrLine := by
  have hb : isAttrLine ['\n'] = false := by decide
  unfold scanAttrs
  rw [scanAttrsAux_block pre _ false hp hne]
  simp [scanAttrsAux, hb]

/-- Witness for C7's amended statement at a concrete line list. -/
theorem scan_stops_at_blank_line_witness :
    scanAttrs ["[assembly: A(1)]".toList, "\n".toList, "[assembly: B(2)]".toList]
      = [("A".toList, "1".toList)] :=
  (scan_stops_at_blank_line ["[assembly: A(1)]".toList]
    ["[assembly: B(2)]".toList] (by decide) (by decide)).trans (by decide)

/-- The success branch of `execute` in one equation: primary exit 0 and
the decompiled file present yield a normal run whose sections, extracted
artifact and supplementary artifacts depend only on the scanned entries
and the two secondary return codes. -/
lemma execute_success (env : Env) (hrc : env.primaryReturncode = 0)
    (hex : env.fileExists (decompiledFilePath env) = true) :
    execute env =
      if env.projectReturncode ≠ 0 then
        ⟨.normal,
          if (scanAttrs env.decompiledLines).isEmpty then []
            else [mkAssemblySection (scanAttrs env.decompiledLines)],
          [decompiledArtifact env],
          if env.ilReturncode = 0 then [ilArtifact env] else []⟩
      else
        ⟨.normal,
          if (scanAttrs env.decompiledLines).isEmpty then []
            else [mkAssemblySection (scanAttrs env.decompiledLines)],
          [decompiledArtifact env],
          (if env.ilReturncode = 0 then [ilArtifact env] else []) ++
            zipArtifact env :: env.projectFiles.map (projArtifact env)⟩ := by
  unfold execute
  rw [if_neg (by simp [hrc]), if_neg (by simp [hex])]

lemma scanAttrs_eq_nil_iff (lines : List (List Char)) :
    scanAttrs lines = [] ↔ lines.any isAttrLine = false :=
  scanAttrsAux_false_eq_nil_iff lines

lemma execute_sections (env : Env) (hrc : env.primaryReturncode = 0)
    (hex : env.fileExists (decompiledFilePath env) = true) :
    (execute env).sections =
      if (scanAttrs env.decompiledLines).isEmpty then []
      else [mkAssemblySection (scanAttrs env.decompiledLines)] := by
  rw [execute_success env hrc hex]
  by_cases hpr : env.projectReturncode ≠ 0
  · rw [if_pos hpr]
  · rw [if_neg hpr]

/-- C5: with primary exit 0 and the decompiled file present, the metadata
section is added iff some line begins with the attribute marker; every
emitted section carries exactly the scanned entry list, which preserves
encounter order and permits duplicate keys (shown on a duplicate-key
input). -/
theorem metadata_section_iff_attr_line (env : Env)
    (hrc : env.primaryReturncode = 0)
    (hex : env.fileExists (decompiledFilePath env) = true) :
    ((execute env).sections ≠ [] ↔ env.decompiledLines.any isAttrLine = true) ∧
      (∀ s ∈ (execute env).sections, s.items = scanAttrs env.decompiledLines) ∧
      scanAttrs ["[assembly: X(1)]".toList, "[assembly: X(2)]".toList]
        = [("X".toList, "1".toList), ("X".toList, "2".toList)] := by
  have hs := execute_sections env hrc hex
  refine ⟨?_, ?_, by decide⟩
  · rcases Bool.eq_false_or_eq_true (env.decompiledLines.any isAttrLine) with ht | hf
    · have hnnil : scanAttrs env.decompiledLines ≠ [] := fun hnil => by
        rw [(scanAttrs_eq_nil_iff _).1 hnil] at ht
        exact Bool.false_ne_true ht
      rcases h : scanAttrs env.decompiledLines with _ | ⟨e, es⟩
      · exact absurd h hnnil
      · rw [hs, h]
        simp [ht]
    · have hnil := (scanAttrs_eq_nil_iff _).2 hf
      rw [hs, hnil]
      simp [hf]
  · intro s hsMem
    rw [hs] at hsMem
    by_cases he : (scanAttrs env.decompiledLines).isEmpty
    · rw [if_pos he] at hsMem
      cases hsMem
    · rw [if_neg he] at hsMem
      have heq : s = mkAssemblySection (scanAttrs env.decompiledLines) := by
        simpa using hsMem
      rw [heq]
      rfl

def envSuccess : Env :=
  { workingDirectory := "/tmp".toList
    filePath := "/tmp/a.dll".toList
    primaryReturncode := 0
    primaryStderr := []
    fileExists := fun _ => true
    decompiledLines := ["[assembly: ComVisible(false)]".toList, "namespace X \x7b".toList]
    ilReturncode := 0
    projectReturncode := 0
    projectFiles := [([], "a.cs".toList)] }

/-- Witness for C5 at a concrete successful environment. -/
theorem metadata_section_iff_attr_line_witness :
    ((execute envSuccess).sections ≠ []
        ↔ envSuccess.decompiledLines.any isAttrLine = true) ∧
      (∀ s ∈ (execute envSuccess).sections,
        s.items = scanAttrs envSuccess.decompiledLines) ∧
      scanAttrs ["[assembly: X(1)]".toList, "[assembly: X(2)]".toList]
        = [("X".toList, "1".toList), ("X".toList, "2".toList)] :=
  metadata_section_iff_attr_line envSuccess rfl rfl

/-- C6: with primary exit 0 but no file at the expected path (the working
directory joined with the input's base name, its extension replaced by the
`.decompiled.cs` suffix), `execute` raises an error and registers no
sections or artifacts. -/
theorem missing_decompiled_file_raises (env : Env)
    (hrc : env.primaryReturncode = 0)
    (hex : env.fileExists (decompiledFilePath env) = false) :
    execute env = ⟨.raised "No ILSpy decompilation found.".toList, [], [], []⟩ ∧
      decompiledFilePath env
        = pyJoin env.workingDirectory
            (splitextRoot (basename env.filePath) ++ ".decompiled.cs".toList) := by
  refine ⟨?_, rfl⟩
  unfold execute
  rw [if_neg (by simp [hrc]), if_pos (by simp [hex])]

def envMissing : Env :=
  { envSuccess with fileExists := fun _ => false }

/-- Witness for C6 at a concrete environment. -/
theorem missing_decompiled_file_raises_witness :
    execute envMissing = ⟨.raised "No ILSpy decompilation found.".toList, [], [], []⟩ ∧
      decompiledFilePath envMissing
        = pyJoin envMissing.workingDirectory
            (splitextRoot (basename envMissing.filePath) ++ ".decompiled.cs".toList) :=
  missing_decompiled_file_raises envMissing rfl rfl

/-- C8: secondary-stage failures are non-fatal.  A nonzero IL-listing exit
registers no IL artifact, raises nothing, and leaves the project stage
unaffected (its artifacts are still registered when it succeeds); a
nonzero project-extraction exit registers neither the archive nor any
project-file artifact and raises nothing. -/
theorem secondary_failures_nonfatal (env : Env)
    (hrc : env.primaryReturncode = 0)
    (hex : env.fileExists (decompiledFilePath env) = true) :
    (env.ilReturncode ≠ 0 →
      (execute env).outcome = .normal ∧
      (∀ a ∈ (execute env).supplementary, a.description ≠ "IL Code file".toList) ∧
      (env.projectReturncode = 0 →
        zipArtifact env ∈ (execute env).supplementary ∧
        ∀ p ∈ env.projectFiles, projArtifact env p ∈ (execute env).supplementary)) ∧
    (env.projectReturncode ≠ 0 →
      (execute env).outcome = .normal ∧
      ∀ a ∈ (execute env).supplementary,
        a.description ≠ "Project folder".toList ∧
          a.description ≠ "Project file".toList) := by
  have hsucc := execute_success env hrc hex
  constructor
  · intro hil
    by_cases hpr : env.projectReturncode = 0
    · rw [hsucc, if_neg (by simp [hpr])]
      refine ⟨rfl, ?_, fun _ => ⟨?_, ?_⟩⟩
      · intro a ha
        simp only [if_neg hil, List.nil_append] at ha
        rcases List.mem_cons.mp ha with h | h
        · rw [h]
          exact (by decide : "Project folder".toList ≠ "IL Code file".toList)
        · rcases List.mem_map.mp h with ⟨p, _, hp⟩
          rw [← hp]
          exact (by decide : "Project file".toList ≠ "IL Code file".toList)
      · show zipArtifact env ∈ (if env.ilReturncode = 0 then [ilArtifact env] else []) ++ _
        rw [if_neg hil]
        exact List.mem_cons_self _ _
      · intro p hp
        show projArtifact env p ∈ (if env.ilReturncode = 0 then [ilArtifact env] else []) ++ _
        rw [if_neg hil]
        exact List.mem_cons_of_mem _ (List.mem_map_of_mem _ hp)
    · rw [hsucc, if_pos hpr]
      refine ⟨rfl, ?_, fun hc => absurd hc hpr⟩
      intro a ha
      show a.description ≠ "IL Code file".toList
      rw [show ((⟨.normal,
          if (scanAttrs env.decompiledLines).isEmpty then []
            else [mkAssemblySection (scanAttrs env.decompiledLines)],
          [decompiledArtifact env],
          if env.ilReturncode = 0 then [ilArtifact env] else []⟩ : ExecResult)).supplementary
        = (if env.ilReturncode = 0 then [ilArtifact env] else []) from rfl,
        if_neg hil] at ha
      cases ha
  · intro hpr
    rw [hsucc, if_pos hpr]
    refine ⟨rfl, ?_⟩
    intro a ha
    show _ ∧ _
    by_cases hil : env.ilReturncode = 0
    · rw [show ((⟨.normal,
          if (scanAttrs env.decompiledLines).isEmpty then []
            else [mkAssemblySection (scanAttrs env.decompiledLines)],
          [decompiledArtifact env],
          if env.ilReturncode = 0 then [ilArtifact env] else []⟩ : ExecResult)).supplementary
        = (if env.ilReturncode = 0 then [ilArtifact env] else []) from rfl,
        if_pos hil] at ha
      have heq : a = ilArtifact env := by simpa using ha
      rw [heq]
      exact ⟨(by decide : "IL Code file".toList ≠ "Project folder".toList),
        (by decide : "IL Code file".toList ≠ "Project file".toList)⟩
    · rw [show ((⟨.normal,
          if (scanAttrs env.decompiledLines).isEmpty then []
            else [mkAssemblySection (scanAttrs env.decompiledLines)],
          [decompiledArtifact env],
          if env.ilReturncode = 0 then [ilArtifact env] else []⟩ : ExecResult)).supplementary
        = (if env.ilReturncode = 0 then [ilArtifact env] else []) from rfl,
        if_neg hil] at ha
      cases ha

def envSecondaryFail : Env :=
  { envSuccess with ilReturncode := 1, projectReturncode := 1 }

/-- Witness for C8 at a concrete environment whose secondary stages fail. -/
theorem secondary_failures_nonfatal_witness :
    (envSecondaryFail.ilReturncode ≠ 0 →
      (execute envSecondaryFail).outcome = .normal ∧
      (∀ a ∈ (execute envSecondaryFail).supplementary,
        a.description ≠ "IL Code file".toList) ∧
      (envSecondaryFail.projectReturncode = 0 →
        zipArtifact envSecondaryFail ∈ (execute envSecondaryFail).supplementary ∧
        ∀ p ∈ envSecondaryFail.projectFiles,
          projArtifact envSecondaryFail p ∈ (execute envSecondaryFail).supplementary)) ∧
    (envSecondaryFail.projectReturncode ≠ 0 →
      (execute envSecondaryFail).outcome = .normal ∧
      ∀ a ∈ (execute envSecondaryFail).supplementary,
        a.description ≠ "Project folder".toList ∧
          a.description ≠ "Project file".toList) :=
  secondary_failures_nonfatal envSecondaryFail rfl rfl

/-- C9: whenever the metadata section is emitted, the advisory subsection
sits under it exactly when the collected attribute keys include
`SuppressIldasm`, and it is the `SuppressIldasm attribute found` advisory;
when that key is absent the section has no subsection. -/
theorem suppress_ildasm_advisory_iff (env : Env)
    (hrc : env.primaryReturncode = 0)
    (hex : env.fileExists (decompiledFilePath env) = true)
    (s : AssemblySection) (hs : s ∈ (execute env).sections) :
    (s.subsections ≠ [] ↔
      (scanAttrs env.decompiledLines).any
        (fun e => e.1 == "SuppressIldasm".toList) = true) ∧
      s.subsections =
        (if (scanAttrs env.decompiledLines).any
            (fun e => e.1 == "SuppressIldasm".toList)
          then [suppressIldasmSection] else []) := by
  rw [execute_sections env hrc hex] at hs
  by_cases he : (scanAttrs env.decompiledLines).isEmpty
  · rw [if_pos he] at hs
    cases hs
  · rw [if_neg he] at hs
    have heq : s = mkAssemblySection (scanAttrs env.decompiledLines) := by
      simpa using hs
    subst heq
    refine ⟨?_, rfl⟩
    rcases Bool.eq_false_or_eq_true
        ((scanAttrs env.decompiledLines).any
          (fun e => e.1 == "SuppressIldasm".toList)) with hk | hk
    · simp [mkAssemblySection, hk]
    · simp [mkAssemblySection, hk]

def envSuppress : Env :=
  { envSuccess with decompiledLines := ["[assembly: SuppressIldasm]".toList] }

/-- Witness for C9 at a concrete environment carrying the marker. -/
theorem suppress_ildasm_advisory_iff_witness :
    ((mkAssemblySection (scanAttrs envSuppress.decompiledLines)).subsections ≠ [] ↔
      (scanAttrs envSuppress.decompiledLines).any
        (fun e => e.1 == "SuppressIldasm".toList) = true) ∧
      (mkAssemblySection (scanAttrs envSuppress.decompiledLines)).subsections =
        (if (scanAttrs envSuppress.decompiledLines).any
            (fun e => e.1 == "SuppressIldasm".toList)
          then [suppressIldasmSection] else []) :=
  suppress_ildasm_advisory_iff envSuppress rfl rfl _ (by decide)

/-! ### Path-component lemmas for C10 -/

lemma joinComponents_ne_nil (l : List (List Char))
    (h : ∀ d ∈ l, d ≠ [] ∧ '/' ∉ d) (hl : l ≠ []) : joinComponents l ≠ [] := by
  match l with
  | [] => exact absurd rfl hl
  | [d] => exact (h d (by simp)).1
  | d :: e :: t => simp [joinComponents]

lemma joinComponents_append_single : ∀ (l : List (List Char)) (f : List Char), l ≠ [] →
    joinComponents (l ++ [f]) = joinComponents l ++ '/' :: f
  | [], _, h => absurd rfl h
  | [d], _, _ => rfl
  | d :: e :: t, f, _ => by
    have hrec := joinComponents_append_single (e :: t) f (by simp)
    show d ++ '/' :: joinComponents ((e :: t) ++ [f])
        = (d ++ '/' :: joinComponents (e :: t)) ++ '/' :: f
    rw [hrec, List.append_assoc, List.cons_append]

lemma joinComponents_getLast_ne_slash : ∀ (l : List (List Char)),
    (∀ x ∈ l, x ≠ [] ∧ '/' ∉ x) → l ≠ [] →
    (joinComponents l).getLast? ≠ some '/'
  | [], _, hl => absurd rfl hl
  | [d], h, _ => by
    intro hl
    obtain ⟨hne, heq⟩ := List.mem_getLast?_eq_getLast (Option.mem_def.mpr hl)
    exact (h d (by simp)).2 (heq ▸ List.getLast_mem hne)
  | d :: e :: t, h, _ => by
    intro hl
    have hvalid : ∀ x ∈ e :: t, x ≠ [] ∧ '/' ∉ x :=
      fun x hx => h x (List.mem_cons_of_mem _ hx)
    have hrec := joinComponents_getLast_ne_slash (e :: t) hvalid (by simp)
    have hne : joinComponents (e :: t) ≠ [] := joinComponents_ne_nil _ hvalid (by simp)
    rw [show joinComponents (d :: e :: t) = d ++ '/' :: joinComponents (e :: t) from rfl,
      List.getLast?_append_cons] at hl
    rcases hj : joinComponents (e :: t) with _ | ⟨c, cs⟩
    · exact hne hj
    · rw [hj, List.getLast?_cons_cons] at hl
      rw [hj] at hrec
      exact hrec hl

lemma append_sep_injective : ∀ (d d' r r' : List Char), '/' ∉ d → '/' ∉ d' →
    d ++ '/' :: r = d' ++ '/' :: r' → d = d' ∧ r = r'
  | [], [], _, _, _, _, h => by simpa using h
  | [], c' :: t', _, _, _, hd', h => by
    simp only [List.nil_append, List.cons_append, List.cons.injEq] at h
    exact absurd (by rw [h.1]; exact List.mem_cons_self _ _) hd'
  | c :: t, [], _, _, hd, _, h => by
    simp only [List.cons_append, List.nil_append, List.cons.injEq] at h
    exact absurd (by rw [← h.1]; exact List.mem_cons_self _ _) hd
  | c :: t, c' :: t', r, r', hd, hd', h => by
    simp only [List.cons_append, List.cons.injEq] at h
    obtain ⟨hc, hrest⟩ := h
    have ih := append_sep_injective t t' r r'
      (fun hm => hd (List.mem_cons_of_mem _ hm))
      (fun hm => hd' (List.mem_cons_of_mem _ hm)) hrest
    exact ⟨by rw [hc, ih.1], ih.2⟩

lemma joinComponents_injective : ∀ (l1 l2 : List (List Char)),
    (∀ d ∈ l1, d ≠ [] ∧ '/' ∉ d) → (∀ d ∈ l2, d ≠ [] ∧ '/' ∉ d) →
    joinComponents l1 = joinComponents l2 → l1 = l2
  | [], [], _, _, _ => rfl
  | [], d :: t, _, h2, h =>
    absurd h.symm (joinComponents_ne_nil (d :: t) h2 (by simp))
  | d :: t, [], h1, _, h =>
    absurd h (joinComponents_ne_nil (d :: t) h1 (by simp))
  | [d], [d'], _, _, h => by
    have hdd : d = d' := h
    rw [hdd]
  | [d], d' :: e' :: t', h1, _, h => by
    exfalso
    have h' : d = d' ++ '/' :: joinComponents (e' :: t') := h
    exact (h1 d (by simp)).2
      (h' ▸ List.mem_append_right _ (List.mem_cons_self _ _))
  | d :: e :: t, [d'], _, h2, h => by
    exfalso
    have h' : d' = d ++ '/' :: joinComponents (e :: t) := h.symm
    exact (h2 d' (by simp)).2
      (h' ▸ List.mem_append_right _ (List.mem_cons_self _ _))
  | d :: e :: t, d' :: e' :: t', h1, h2, h => by
    have h' : d ++ '/' :: joinComponents (e :: t)
        = d' ++ '/' :: joinComponents (e' :: t') := h
    obtain ⟨hd, hj⟩ := append_sep_injective d d' _ _
      (h1 d (by simp)).2 (h2 d' (by simp)).2 h'
    have ht := joinComponents_injective (e :: t) (e' :: t')
      (fun x hx => h1 x (List.mem_cons_of_mem _ hx))
      (fun x hx => h2 x (List.mem_cons_of_mem _ hx)) hj
    rw [hd, ht]

lemma dotSlash_not_prefixOf (d rest : List Char)
    (hne : d ≠ []) (hslash : '/' ∉ d) (hdot : d ≠ ['.']) :
    dotSlash.isPrefixOf (d ++ rest) = false := by
  cases d with
  | nil => exact absurd rfl hne
  | cons c t =>
    by_cases hc : c = '.'
    · subst hc
      cases t with
      | nil => exact absurd rfl hdot
      | cons c2 t2 =>
        have hc2 : ¬ ('/' = c2) := fun h =>
          hslash (h ▸ List.mem_cons_of_mem _ (List.mem_cons_self _ _))
        simp [dotSlash, List.isPrefixOf, hc2]
    · have hc' : ¬ ('.' = c) := fun h => hc h.symm
      simp [dotSlash, List.isPrefixOf, hc']

/-- The registered name of a walked project file is the `/`-joined
relative path of its directory components followed by its filename. -/
lemma projArtifactName_eq_join (ds : List (List Char)) (f : List Char)
    (hds : ∀ d ∈ ds, d ≠ [] ∧ '/' ∉ d ∧ d ≠ ['.'])
    (hfne : f ≠ []) (hfslash : '/' ∉ f) :
    projArtifactName ds f = joinComponents (ds ++ [f]) := by
  cases ds with
  | nil =>
    cases f with
    | nil => exact absurd rfl hfne
    | cons c t =>
      have hc : ¬ (c = '/') := fun h => hfslash (h ▸ List.mem_cons_self _ _)
      simp [projArtifactName, pyJoin, joinComponents, dotSlash, List.isPrefixOf, hc]
  | cons d ds' =>
    have hdv := hds d (by simp)
    have hvalid : ∀ x ∈ d :: ds', x ≠ [] ∧ '/' ∉ x :=
      fun x hx => ⟨(hds x hx).1, (hds x hx).2.1⟩
    have hrelne : joinComponents (d :: ds') ≠ [] :=
      joinComponents_ne_nil _ hvalid (by simp)
    have hlast : ¬ ((joinComponents (d :: ds')).getLast? = some '/') :=
      joinComponents_getLast_ne_slash _ hvalid (by simp)
    have hhead : ¬ (f.head? = some '/') := by
      cases f with
      | nil => simp
      | cons c t =>
        simp only [List.head?_cons, Option.some.injEq]
        exact fun h => hfslash (h ▸ List.mem_cons_self _ _)
    have hjoin : pyJoin (joinComponents (d :: ds')) f
        = joinComponents (d :: ds') ++ '/' :: f := by
      unfold pyJoin
      rw [if_neg hhead, if_neg (not_or.mpr ⟨hrelne, hlast⟩)]
    have hexp : ∃ rest, joinComponents (d :: ds') ++ '/' :: f = d ++ rest := by
      cases ds' with
      | nil => exact ⟨'/' :: f, rfl⟩
      | cons e t =>
        exact ⟨'/' :: joinComponents (e :: t) ++ '/' :: f, by simp [joinComponents]⟩
    obtain ⟨rest, hrest⟩ := hexp
    have hnotpre : dotSlash.isPrefixOf (joinComponents (d :: ds') ++ '/' :: f) = false := by
      rw [hrest]
      exact dotSlash_not_prefixOf d rest hdv.1 hdv.2.1 hdv.2.2
    have hj2 := joinComponents_append_single (d :: ds') f (by simp)
    simp only [projArtifactName, List.isEmpty_cons, Bool.false_eq_true, if_false,
      hjoin, hnotpre, hj2]

/-- C10: with the project extraction succeeding, every walked file is
registered as a supplementary artifact; its name is the `/`-joined path of
its directory components and filename relative to the project folder (the
leading `./` of top-directory files stripped), not the bare base filename,
so equal base names under different directories give distinct names. -/
theorem project_files_named_by_relative_path (env : Env)
    (hrc : env.primaryReturncode = 0)
    (hex : env.fileExists (decompiledFilePath env) = true)
    (hproj : env.projectReturncode = 0) :
    (∀ p ∈ env.projectFiles, projArtifact env p ∈ (execute env).supplementary) ∧
    (∀ (ds : List (List Char)) (f : List Char),
      (∀ d ∈ ds, d ≠ [] ∧ '/' ∉ d ∧ d ≠ ['.']) → f ≠ [] → '/' ∉ f →
      projArtifactName ds f = joinComponents (ds ++ [f])) ∧
    (∀ (ds ds' : List (List Char)) (f : List Char),
      (∀ d ∈ ds, d ≠ [] ∧ '/' ∉ d ∧ d ≠ ['.']) →
      (∀ d ∈ ds', d ≠ [] ∧ '/' ∉ d ∧ d ≠ ['.']) →
      f ≠ [] → '/' ∉ f → ds ≠ ds' →
      projArtifactName ds f ≠ projArtifactName ds' f) := by
  refine ⟨?_, fun ds f hds hfne hfslash => projArtifactName_eq_join ds f hds hfne hfslash, ?_⟩
  · intro p hp
    rw [execute_success env hrc hex, if_neg (by simp [hproj])]
    show projArtifact env p
      ∈ (if env.ilReturncode = 0 then [ilArtifact env] else []) ++ _
    exact List.mem_append_right _
      (List.mem_cons_of_mem _ (List.mem_map_of_mem _ hp))
  · intro ds ds' f hds hds' hfne hfslash hne
    rw [projArtifactName_eq_join ds f hds hfne hfslash,
      projArtifactName_eq_join ds' f hds' hfne hfslash]
    intro h
    have hvf : ∀ l : List (List Char), (∀ d ∈ l, d ≠ [] ∧ '/' ∉ d ∧ d ≠ ['.']) →
        ∀ x ∈ l ++ [f], x ≠ [] ∧ '/' ∉ x := by
      intro l hl x hx
      rcases List.mem_append.mp hx with hm | hm
      · exact ⟨(hl x hm).1, (hl x hm).2.1⟩
      · have : x = f := by simpa using hm
        rw [this]
        exact ⟨hfne, hfslash⟩
    have := joinComponents_injective (ds ++ [f]) (ds' ++ [f])
      (hvf ds hds) (hvf ds' hds') h
    exact hne (List.append_cancel_right this)

/-- Witness for C10 at a concrete successful environment. -/
theorem project_files_named_by_relative_path_witness :
    (∀ p ∈ envSuccess.projectFiles,
      projArtifact envSuccess p ∈ (execute envSuccess).supplementary) ∧
    (∀ (ds : List (List Char)) (f : List Char),
      (∀ d ∈ ds, d ≠ [] ∧ '/' ∉ d ∧ d ≠ ['.']) → f ≠ [] → '/' ∉ f →
      projArtifactName ds f = joinComponents (ds ++ [f])) ∧
    (∀ (ds ds' : List (List Char)) (f : List Char),
      (∀ d ∈ ds, d ≠ [] ∧ '/' ∉ d ∧ d ≠ ['.']) →
      (∀ d ∈ ds', d ≠ [] ∧ '/' ∉ d ∧ d ≠ ['.']) →
      f ≠ [] → '/' ∉ f → ds ≠ ds' →
      projArtifactName ds f ≠ projArtifactName ds' f) :=
  project_files_named_by_relative_path envSuccess rfl rfl rfl

end DotnetDecompiler
